import Mathlib

set_option maxRecDepth 100000

/-!
Verification development for the AccountDedupe repository.

The repository contains two implementations of the account resolution
engine:
  * `src/app.py` — the Streamlit front end with an inline engine
    (modelled below in namespace `App`);
  * `src/unnamed/part_000` ("Account SFDC Clean.py" / account_processing.py)
    — a standalone engine (modelled below in namespace `Clean`).

Text is modelled as `List Char` (Python `str`), CSV missing values (NaN)
as `Option.none`, floats as `ℚ`, and timestamps / counters as `Int`.
-/

namespace AccountDedupe

/-- Characters of a string literal, for readable concrete inputs. -/
def cl (s : String) : List Char := s.data

/-- Model of Python `list.__contains__` specialised to `Char`. -/
def containsChar (s : List Char) (c : Char) : Bool :=
  s.any (fun d => decide (d = c))

/-- Test `isPrefixCL p s`: `p` is a prefix of `s` (model for Python string
prefix tests; building block for `endsWithCL`). -/
def isPrefixCL : List Char → List Char → Bool
  | [], _ => true
  | _ :: _, [] => false
  | c :: cs, d :: ds => decide (c = d) && isPrefixCL cs ds

/-- Model of Python `str.endswith(pat)`. -/
def endsWithCL (s pat : List Char) : Bool :=
  isPrefixCL pat.reverse s.reverse

/-- Model of Python `str.split('.')`: splits on every `'.'`, keeping empty
pieces; `"".split('.') == ['']`. -/
def splitDot : List Char → List (List Char)
  | [] => [[]]
  | c :: cs =>
    match splitDot cs with
    | [] => [[]]
    | h :: t => if c = '.' then [] :: h :: t else (c :: h) :: t

/-- Model of Python `'.'.join(parts)`. -/
def joinDot : List (List Char) → List Char
  | [] => []
  | [x] => x
  | x :: y :: t => x ++ '.' :: joinDot (y :: t)

namespace Similarity

/-!
Model of `difflib.SequenceMatcher(None, a, b)` from the Python standard
library, as called by both source files.  `rowFun` is one row of the
`j2len` dynamic-programming table of `find_longest_match`, `bestUpd` is
its best-block update (strict improvement only, so the earliest maximal
block in scan order wins), `flm` is `find_longest_match` over the window
`[alo,ahi) × [blo,bhi)`, `mbTotal` is the total size of
`get_matching_blocks` (the queue recursion), and `ratio` is
`SequenceMatcher.ratio` = 2·M/T as an exact rational.  The autojunk
heuristic only activates for strings of 200+ characters and is vacuous on
the account-name/domain inputs modelled here, so it is omitted; with no
junk the two block-extension loops of `find_longest_match` are no-ops.
-/

/-- One row of the `j2len` table: `rowFun b blo bhi c prev j` is the length
of the longest common run ending at the current row and column `j`, given
the previous row `prev` (Python `j2len.get(j-1, 0) + 1` at matching `j`). -/
def rowFun (b : List Char) (blo bhi : Nat) (c : Char) (prev : Nat → Nat) (j : Nat) : Nat :=
  if blo ≤ j ∧ j < bhi ∧ b[j]? = some c then
    (if j = blo then 0 else prev (j - 1)) + 1
  else 0

/-- Best-block update at row `i`, column `j` (Python
`if k > bestsize: besti, bestj, bestsize = i-k+1, j-k+1, k`). -/
def bestUpd (i : Nat) (r : Nat → Nat) (bst : Nat × Nat × Nat) (j : Nat) : Nat × Nat × Nat :=
  if bst.2.2 < r j then (i + 1 - r j, j + 1 - r j, r j) else bst

/-- One outer-loop step of `find_longest_match` (row `i`). -/
def flmStep (a b : List Char) (blo bhi : Nat)
    (st : (Nat → Nat) × (Nat × Nat × Nat)) (i : Nat) :
    (Nat → Nat) × (Nat × Nat × Nat) :=
  match a[i]? with
  | some c =>
    let r := rowFun b blo bhi c st.1
    (r, (List.range' blo (bhi - blo)).foldl (bestUpd i r) st.2)
  | none => st

/-- Model of `find_longest_match(alo, ahi, blo, bhi)`: returns `(besti, bestj, bestsize)`. -/
def flm (a b : List Char) (alo ahi blo bhi : Nat) : Nat × Nat × Nat :=
  ((List.range' alo (ahi - alo)).foldl (flmStep a b blo bhi)
    (fun _ => 0, (alo, blo, 0))).2

/-- Total matched size of `get_matching_blocks` restricted to a window,
with explicit fuel (the window shrinks at every recursive call, so any
fuel of at least `ahi + bhi` suffices). -/
def mbTotal (a b : List Char) : Nat → Nat → Nat → Nat → Nat → Nat
  | 0, _, _, _, _ => 0
  | fuel + 1, alo, ahi, blo, bhi =>
    let t := flm a b alo ahi blo bhi
    if t.2.2 = 0 then 0
    else
      mbTotal a b fuel alo t.1 blo t.2.1 + t.2.2 +
        mbTotal a b fuel (t.1 + t.2.2) ahi (t.2.1 + t.2.2) bhi

/-- Model of `SequenceMatcher(None, a, b).ratio()` = `2*M/T` (written `mkRat (2*M) T`,
the same rational since `T ≠ 0` in that branch), and `1.0` when both strings
are empty (`difflib._calculate_ratio`). -/
def ratio (a b : List Char) : ℚ :=
  if a.length + b.length = 0 then 1
  else
    mkRat (2 * mbTotal a b (a.length + b.length + 1) 0 a.length 0 b.length)
      (a.length + b.length)

/-- If no column beats the current best size, the best-block fold is the
identity. -/
lemma foldl_bestUpd_fix (i : Nat) (r : Nat → Nat) :
    ∀ (L : List Nat) (bst : Nat × Nat × Nat), (∀ j ∈ L, r j ≤ bst.2.2) →
      L.foldl (bestUpd i r) bst = bst
  | [], _, _ => rfl
  | j :: t, bst, h => by
    have hj : r j ≤ bst.2.2 := h j (List.mem_cons_self j t)
    have hstep : bestUpd i r bst j = bst := by
      unfold bestUpd
      rw [if_neg (Nat.not_lt.mpr hj)]
    rw [List.foldl_cons, hstep]
    exact foldl_bestUpd_fix i r t bst (fun k hk => h k (List.mem_cons_of_mem j hk))

/-- Invariant of the `find_longest_match` outer fold on two copies of the
same string: after `m` rows the best block is the diagonal `(0, 0, m)`, and
every `j2len` entry is bounded by both `m` and `j + 1`, with the diagonal
entry of the last row equal to `m`. -/
lemma flm_self_aux (s : List Char) :
    ∀ m, m ≤ s.length →
      ∃ r : Nat → Nat,
        (List.range' 0 m).foldl (flmStep s s 0 s.length) (fun _ => 0, (0, 0, 0)) =
          (r, (0, 0, m)) ∧
        (∀ j, r j ≤ m ∧ r j ≤ j + 1) ∧
        (∀ j, j + 1 = m → r j = m) := by
  intro m
  induction m with
  | zero =>
    intro _
    exact ⟨fun _ => 0, rfl, fun j => ⟨Nat.zero_le _, Nat.zero_le _⟩, fun j h => by omega⟩
  | succ m ih =>
    intro hm1
    obtain ⟨r, hfold, hb, hd⟩ := ih (Nat.le_of_succ_le hm1)
    have hmlt : m < s.length := hm1
    obtain ⟨c, hc⟩ : ∃ c, s[m]? = some c := ⟨_, List.getElem?_eq_getElem hmlt⟩
    have hr : List.range' 0 (m + 1) = List.range' 0 m ++ [m] := by
      simpa using List.range'_1_concat 0 m
    have hstep :
        flmStep s s 0 s.length (r, (0, 0, m)) m =
          (rowFun s 0 s.length c r,
            (List.range' 0 (s.length - 0)).foldl
              (bestUpd m (rowFun s 0 s.length c r)) (0, 0, m)) := by
      unfold flmStep
      rw [hc]
    have hb2 : ∀ j, rowFun s 0 s.length c r j ≤ m + 1 ∧ rowFun s 0 s.length c r j ≤ j + 1 := by
      intro j
      have hbj1 := (hb (j - 1)).1
      have hbj2 := (hb (j - 1)).2
      unfold rowFun
      split_ifs with h1 h2 <;> omega
    have hd2 : rowFun s 0 s.length c r m = m + 1 := by
      unfold rowFun
      rw [if_pos ⟨Nat.zero_le m, hmlt, hc⟩]
      by_cases hm0 : m = 0
      · rw [if_pos hm0, hm0]
      · rw [if_neg hm0, hd (m - 1) (by omega)]
    have hbest :
        (List.range' 0 (s.length - 0)).foldl
            (bestUpd m (rowFun s 0 s.length c r)) (0, 0, m) = (0, 0, m + 1) := by
      have hsplit :
          List.range' 0 s.length =
            (List.range' 0 m ++ [m]) ++ List.range' (m + 1) (s.length - (m + 1)) := by
        rw [← hr]
        have happ := List.range'_append_1 0 (m + 1) (s.length - (m + 1))
        have harith : s.length - (m + 1) + (m + 1) = s.length := by omega
        simp only [Nat.zero_add] at happ
        rw [happ, harith]
      rw [Nat.sub_zero, hsplit, List.foldl_append, List.foldl_append]
      have hph1 : (List.range' 0 m).foldl (bestUpd m (rowFun s 0 s.length c r)) (0, 0, m) =
          (0, 0, m) := by
        refine foldl_bestUpd_fix _ _ _ _ ?_
        intro j hj
        have hjm : j < m := by
          have := List.mem_range'_1.mp hj
          omega
        have := (hb2 j).2
        show rowFun s 0 s.length c r j ≤ m
        omega
      rw [hph1]
      have hph2 : ([m] : List Nat).foldl (bestUpd m (rowFun s 0 s.length c r)) (0, 0, m) =
          (0, 0, m + 1) := by
        simp only [List.foldl_cons, List.foldl_nil]
        unfold bestUpd
        rw [hd2, if_pos (show ((0 : Nat), (0 : Nat), m).2.2 < m + 1 from Nat.lt_succ_self m)]
        simp
      rw [hph2]
      refine foldl_bestUpd_fix _ _ _ _ ?_
      intro j hj
      show rowFun s 0 s.length c r j ≤ m + 1
      exact (hb2 j).1
    refine ⟨rowFun s 0 s.length c r, ?_, hb2, ?_⟩
    · rw [hr, List.foldl_append, hfold]
      simp only [List.foldl_cons, List.foldl_nil]
      rw [hstep, hbest]
    · intro j hj
      have : j = m := by omega
      rw [this]
      exact hd2

/-- On two copies of the same string, `find_longest_match` on the full
window returns the whole diagonal. -/
lemma flm_self (s : List Char) : flm s s 0 s.length 0 s.length = (0, 0, s.length) := by
  obtain ⟨r, hfold, -, -⟩ := flm_self_aux s s.length le_rfl
  unfold flm
  rw [Nat.sub_zero, hfold]

/-- On an empty window `find_longest_match` finds nothing. -/
lemma flm_degenerate (a b : List Char) (x y : Nat) : flm a b x x y y = (x, y, 0) := by
  unfold flm
  simp

/-- On an empty window `get_matching_blocks` matches nothing. -/
lemma mbTotal_degenerate (a b : List Char) (fuel x y : Nat) :
    mbTotal a b fuel x x y y = 0 := by
  cases fuel with
  | zero => rfl
  | succ n =>
    unfold mbTotal
    rw [flm_degenerate]
    simp

/-- Applied to a string and itself, `SequenceMatcher.ratio()` is exactly 1. -/
lemma ratio_self (a : List Char) : ratio a a = 1 := by
  by_cases hnil : a = []
  · rw [hnil]
    rfl
  have hlen : a.length ≠ 0 := by
    simpa using hnil
  unfold ratio
  rw [if_neg (by omega)]
  have hm : mbTotal a a (a.length + a.length + 1) 0 a.length 0 a.length = a.length := by
    unfold mbTotal
    rw [flm_self]
    simp only
    rw [if_neg hlen, mbTotal_degenerate]
    simp only [Nat.zero_add]
    rw [mbTotal_degenerate]
    omega
  rw [hm, Rat.mkRat_eq_div]
  have hq : ((a.length : ℚ)) ≠ 0 := Nat.cast_ne_zero.mpr hlen
  push_cast
  field_simp
  ring

end Similarity

/-- The five values the `Outcome` column can take. -/
inductive Outcome where
  | noAction
  | parent
  | child
  | merge
  | delete
deriving DecidableEq, Repr

/-- One CSV row: the input fields both pipelines read.  `none` models a
missing value (pandas NaN); counters and timestamps are integers. -/
structure Account where
  id : List Char
  name : Option (List Char)
  domain : Option (List Char)
  website : Option (List Char)
  billingCountry : Option (List Char)
  createdDate : Int
  totalContacts : Int
  closedOpportunities : Int
  openOpportunities : Int
deriving DecidableEq, Repr

instance : Inhabited Account :=
  ⟨⟨[], none, none, none, none, 0, 0, 0, 0⟩⟩

/-- Row `i` of the dataframe (rows are indexed by position, as in pandas). -/
def dfGet (df : List Account) (i : Nat) : Account := df.getD i default

/-- Value of `row['Account Name']` where the Python code uses it as a string.  The
source would raise a `TypeError` on a NaN name here, so behaviour is
modelled for frames whose relevant names are present (then `nameOf` is
exactly the name). -/
def nameOf (a : Account) : List Char := a.name.getD []

/-- Indices of the rows of one `groupby` group for key `r` (pandas keeps
original row order inside a group and drops NaN keys). -/
def groupIdx (root : Account → Option (List Char)) (df : List Account) (r : List Char) :
    List Nat :=
  (List.range df.length).filter (fun i => decide (root (dfGet df i) = some r))

/-- First index of `t` (given a current best `h`) under the strict
"better" relation `f`; keeps the earlier element on ties, which is the
first row of a stable pandas `sort_values` and also `Series.idxmax`. -/
def pickFirst (f : Nat → Nat → Bool) (h : Nat) (t : List Nat) : Nat :=
  t.foldl (fun b i => if f i b then i else b) h

/-- Model of `group.sort_values(...).iloc[:1]`, i.e. the sort head as a
(zero- or one-element) index list. -/
def firstBy (f : Nat → Nat → Bool) : List Nat → List Nat
  | [] => []
  | h :: t => [pickFirst f h t]

/-- Strictly better under `sort_values(by=['Total Contacts', 'Created Date'],
ascending=[False, True])`. -/
def tcBetter (df : List Account) (i j : Nat) : Bool :=
  decide ((dfGet df j).totalContacts < (dfGet df i).totalContacts ∨
    ((dfGet df i).totalContacts = (dfGet df j).totalContacts ∧
      (dfGet df i).createdDate < (dfGet df j).createdDate))

/-- Strictly better under `sort_values(by=['Created Date'])`. -/
def dateBetter (df : List Account) (i j : Nat) : Bool :=
  decide ((dfGet df i).createdDate < (dfGet df j).createdDate)

/-- The cascade step `parent_row = X; if parent_row.empty: parent_row = Y`:
keep the previous selection unless it is empty. -/
def orElse (prev next : List Nat) : List Nat :=
  if prev.isEmpty then next else prev

/-- Deletion preconditions shared by both pipelines: no domain, no
website, no closed and no open opportunities. -/
def deletionPre (a : Account) : Prop :=
  a.domain = none ∧ a.website = none ∧
    a.closedOpportunities = 0 ∧ a.openOpportunities = 0

instance (a : Account) : Decidable (deletionPre a) :=
  inferInstanceAs (Decidable (_ = _ ∧ _ = _ ∧ _ = _ ∧ _ = _))

namespace Clean

/-!
Model of `process_account_relationships` and its helpers from
`src/unnamed/part_000` ("Account SFDC Clean.py" / account_processing.py).
-/

/-- Function `extract_domain_root_and_suffix` (part_000 lines 8-23): splits on `'.'`
and returns `(parts[-2], parts[-1])`; `(None, None)` for a missing domain
or fewer than 2 parts. -/
def extract_domain_root_and_suffix (domain : Option (List Char)) :
    Option (List Char) × Option (List Char) :=
  match domain with
  | none => (none, none)
  | some d =>
    let parts := splitDot d
    if 2 ≤ parts.length then
      (some (parts.getD (parts.length - 2) []), some (parts.getD (parts.length - 1) []))
    else (none, none)

/-- Function `clean_domain` (part_000 lines 25-35): removes `'-'` and `'_'`;
identity on a missing value. -/
def clean_domain (domain : Option (List Char)) : Option (List Char) :=
  match domain with
  | none => none
  | some d => some (d.filter (fun c => decide (c ≠ '-' ∧ c ≠ '_')))

/-- The `'Domain Root'` column (part_000 line 74). -/
def domainRoot (a : Account) : Option (List Char) :=
  (extract_domain_root_and_suffix a.domain).1

/-- Model of `re.match(r'^.*\.com$', s)` as a Boolean: `.` does not match a newline
and `$` also matches just before one final trailing newline, so the
pattern holds iff, after dropping one trailing newline, the string ends
with the literal `".com"` and contains no newline. -/
def matchesDotComAnchored (s : List Char) : Bool :=
  let t := if endsWithCL s [Char.ofNat 10] then s.dropLast else s
  endsWithCL t (cl ".com") && !(containsChar t (Char.ofNat 10))

/-- Rule-1 predicate (part_000 line 89):
`group['Domain'].str.match(r'^.*\.com$')`. -/
def comRule (a : Account) : Bool :=
  match a.domain with
  | some d => matchesDotComAnchored d
  | none => false

/-- Rule-2 predicate (part_000 line 94): `Billing Country == 'United States'`. -/
def usRule (a : Account) : Bool :=
  decide (a.billingCountry = some (cl "United States"))

/-- Rule-3 predicate (part_000 line 99):
`Billing Country isin ['United Kingdom', 'Europe']`. -/
def ukEuRule (a : Account) : Bool :=
  decide (a.billingCountry = some (cl "United Kingdom") ∨
    a.billingCountry = some (cl "Europe"))

/-- Rule-5 similarity score (part_000 line 108): `domain_similarity` of the
group head's cleaned domain against member `i`'s cleaned domain. -/
def simScore (df : List Account) (h i : Nat) : ℚ :=
  Similarity.ratio ((clean_domain (dfGet df h).domain).getD [])
    ((clean_domain (dfGet df i).domain).getD [])

/-- Rule 5 (part_000 lines 106-111): `idxmax` of the similarity scores
(first index achieving the maximum). -/
def simRule (df : List Account) : List Nat → List Nat
  | [] => []
  | h :: t => [pickFirst (fun i b => decide (simScore df h b < simScore df h i)) h t]

/-- The parent-row cascade (part_000 lines 88-115): each rule only fires
when every earlier `parent_row` came out empty (`orElse` is exactly the
`if parent_row.empty:` chaining of the source). -/
def parentIdxs (df : List Account) (g : List Nat) : List Nat :=
  orElse (orElse (orElse (orElse (orElse
    (g.filter (fun i => comRule (dfGet df i)))
    (g.filter (fun i => usRule (dfGet df i))))
    (g.filter (fun i => ukEuRule (dfGet df i))))
    (firstBy (tcBetter df) g))
    (simRule df g))
    (firstBy (dateBetter df) g)

/-- The cascade truncated after rule 4, for stating that rules 5 and 6 are
dead code. -/
def parentIdxsThroughRule4 (df : List Account) (g : List Nat) : List Nat :=
  orElse (orElse (orElse
    (g.filter (fun i => comRule (dfGet df i)))
    (g.filter (fun i => usRule (dfGet df i))))
    (g.filter (fun i => ukEuRule (dfGet df i))))
    (firstBy (tcBetter df) g)

/-- Outcome and `'Proposed Parent ID'` written by the group loop
(part_000 lines 85-121) for row `i`: rows outside every (size ≥ 2) group
keep `No Action`; group rows are set to `Child`, then the `parent_row`
rows to `Parent`, and the remaining group rows get the first parent row's
`'Account ID'` as proposed parent. -/
def parentStage (df : List Account) (i : Nat) : Outcome × Option (List Char) :=
  match domainRoot (dfGet df i) with
  | none => (Outcome.noAction, none)
  | some r =>
    let g := groupIdx domainRoot df r
    if g.length ≤ 1 then (Outcome.noAction, none)
    else
      let P := parentIdxs df g
      if P = [] then (Outcome.noAction, none)
      else if i ∈ P then (Outcome.parent, none)
      else (Outcome.child, some (dfGet df (P.headD 0)).id)

/-- Scan of `df[df['Domain'].notna()][['Account Name', 'Account ID']]` in
original row order (part_000 lines 130-134): the first target whose
`fuzzy_name_match` with the candidate name strictly exceeds 0.8 wins and
the scan breaks. -/
def mergeScanAux (df : List Account) (n : List Char) : List Nat → Option (List Char)
  | [] => none
  | j :: t =>
    let a := dfGet df j
    if a.domain.isSome ∧ mkRat 4 5 < Similarity.ratio n (nameOf a) then some a.id
    else mergeScanAux df n t

/-- Column `'Merge Target ID'` for row `i` (part_000 lines 125-137): only rows
with no domain and a present name are candidates; the target is looked up
by candidate name via the first-match scan. -/
def merge_target (df : List Account) (i : Nat) : Option (List Char) :=
  let a := dfGet df i
  if a.domain = none ∧ a.name ≠ none then mergeScanAux df (nameOf a) (List.range df.length)
  else none

/-- Test `df['Account Name'].isin(matching_accounts)` (part_000 lines 147-148):
is the row's name among the names of domain-bearing rows?  (pandas `isin`
also matches NaN against NaN, hence plain `Option` equality.) -/
def hasDomainWithName (df : List Account) (n : Option (List Char)) : Bool :=
  df.any (fun a => a.domain.isSome && decide (a.name = n))

/-- Outcome after the parent stage. -/
def outcomeAfterParent (df : List Account) (i : Nat) : Outcome :=
  (parentStage df i).1

/-- Outcome after the merge stage (part_000 line 138): candidates with a
merge target become `Merge`. -/
def outcomeAfterMerge (df : List Account) (i : Nat) : Outcome :=
  if (merge_target df i).isSome then Outcome.merge else outcomeAfterParent df i

/-- Final outcome (part_000 lines 140-148): the deletion write happens
last and overwrites whatever outcome the row had. -/
def outcome (df : List Account) (i : Nat) : Outcome :=
  if deletionPre (dfGet df i) ∧ hasDomainWithName df (dfGet df i).name = false then
    Outcome.delete
  else outcomeAfterMerge df i

/-- Final `'Proposed Parent ID'` of row `i` (only the group loop writes it). -/
def proposedParentId (df : List Account) (i : Nat) : Option (List Char) :=
  (parentStage df i).2

end Clean

namespace App

/-!
Model of the inline engine of `src/app.py` (the Streamlit front end).
"Initial processing" is the `Start Processing` handler (parent stage,
exact-name merge, deletion); the fuzzy stage is the separate
`Run Fuzzy Matching` handler that runs afterwards.
-/

/-- Function `extract_domain_root_and_suffix` (app.py lines 34-40): splits on `'.'`
and returns `(parts[0], '.'.join(parts[1:]))`; `(None, None)` for a
missing domain or fewer than 2 parts. -/
def extract_domain_root_and_suffix (domain : Option (List Char)) :
    Option (List Char) × Option (List Char) :=
  match domain with
  | none => (none, none)
  | some d =>
    let parts := splitDot d
    if 2 ≤ parts.length then (some (parts.headD []), some (joinDot parts.tail))
    else (none, none)

/-- The `'Root Domain'` column (app.py line 43). -/
def domainRoot (a : Account) : Option (List Char) :=
  (extract_domain_root_and_suffix a.domain).1

/-- The `'Domain Suffix'` column (app.py line 43). -/
def domainSuffix (a : Account) : Option (List Char) :=
  (extract_domain_root_and_suffix a.domain).2

/-- Rule-1 predicate (app.py line 57):
`group['Domain Suffix'].str.endswith('com')`. -/
def comRule (a : Account) : Bool :=
  endsWithCL ((domainSuffix a).getD []) (cl "com")

/-- The app.py parent-row selection (lines 56-61): the `.com`-suffix rows,
else the head of the `(Total Contacts desc, Created Date asc)` sort; there
are no country rules in this file. -/
def parentIdxs (df : List Account) (g : List Nat) : List Nat :=
  orElse (g.filter (fun i => comRule (dfGet df i))) (firstBy (tcBetter df) g)

/-- Outcome and `'Proposed Parent ID'` written by the group loop
(app.py lines 54-67) for row `i`. -/
def parentStage (df : List Account) (i : Nat) : Outcome × Option (List Char) :=
  match domainRoot (dfGet df i) with
  | none => (Outcome.noAction, none)
  | some r =>
    let g := groupIdx domainRoot df r
    if g.length ≤ 1 then (Outcome.noAction, none)
    else
      let P := parentIdxs df g
      if P = [] then (Outcome.noAction, none)
      else if i ∈ P then (Outcome.parent, none)
      else (Outcome.child, some (dfGet df (P.headD 0)).id)

/-- Exact-match scan of `domain_accounts` (rows with a present domain and a
present name, app.py line 72) in original row order: first row whose name
equals the candidate's name (app.py lines 76-80). -/
def exactScanAux (df : List Account) (n : List Char) : List Nat → Option (List Char)
  | [] => none
  | j :: t =>
    let a := dfGet df j
    if a.domain.isSome ∧ a.name = some n then some a.id
    else exactScanAux df n t

/-- Column `'Merge Target ID'` written by the exact-merge loop (app.py lines
70-81) for row `i`. -/
def merge_target (df : List Account) (i : Nat) : Option (List Char) :=
  let a := dfGet df i
  if a.domain = none ∧ a.name ≠ none then exactScanAux df (nameOf a) (List.range df.length)
  else none

/-- Outcome after the parent stage. -/
def outcomeAfterParent (df : List Account) (i : Nat) : Outcome :=
  (parentStage df i).1

/-- Outcome after the exact-merge loop (app.py line 81). -/
def outcomeAfterMerge (df : List Account) (i : Nat) : Outcome :=
  if (merge_target df i).isSome then Outcome.merge else outcomeAfterParent df i

/-- Outcome at the end of initial processing (app.py lines 83-90): the
deletion condition has no name guard and overwrites any prior outcome. -/
def outcome (df : List Account) (i : Nat) : Outcome :=
  if deletionPre (dfGet df i) then Outcome.delete else outcomeAfterMerge df i

/-- One step of the fuzzy best-match loop (app.py lines 114-120): running
`(best_match, best_ratio)` state, threshold seeded at 0.8, strict
improvement only. -/
def fuzzyStep (df : List Account) (n : List Char) (st : Option (List Char) × ℚ) (j : Nat) :
    Option (List Char) × ℚ :=
  let a := dfGet df j
  if a.domain.isSome ∧ a.name ≠ none then
    if st.2 < Similarity.ratio n (nameOf a) then (some a.id, Similarity.ratio n (nameOf a))
    else st
  else st

/-- The full fuzzy scan of `domain_accounts` for one candidate name. -/
def fuzzyFold (df : List Account) (n : List Char) : Option (List Char) × ℚ :=
  (List.range df.length).foldl (fuzzyStep df n) (none, mkRat 4 5)

/-- Dict `fuzzy_merge_target_dict` value for a candidate name (app.py lines
111-122): the best matching domain-account id, if any cleared 0.8. -/
def fuzzy_target (df : List Account) (n : List Char) : Option (List Char) :=
  (fuzzyFold df n).1

/-- Lookup of `fuzzy_merge_target_dict` by account id (app.py lines
125-127).  The dict maps each merge-candidate row's id to its fuzzy
target; a later candidate with the same id overwrites an earlier one, so
the lookup scans candidates in reverse row order. -/
def fuzzyDictLookup (df : List Account) (idv : List Char) : List Nat → Option (List Char)
  | [] => none
  | j :: t =>
    let a := dfGet df j
    if (a.domain = none ∧ a.name ≠ none) ∧ a.id = idv then
      match fuzzy_target df (nameOf a) with
      | some tgt => some tgt
      | none => fuzzyDictLookup df idv t
    else fuzzyDictLookup df idv t

/-- Outcome and `'Merge Target ID'` after the optional fuzzy stage
(app.py lines 106-127), which runs on the already-processed frame and
assigns by `Account ID` equality. -/
def resultAfterFuzzy (df : List Account) (i : Nat) : Outcome × Option (List Char) :=
  match fuzzyDictLookup df (dfGet df i).id (List.range df.length).reverse with
  | some t => (Outcome.merge, some t)
  | none => (outcome df i, merge_target df i)

/-- Final `'Proposed Parent ID'` of row `i` (only the group loop writes it). -/
def proposedParentId (df : List Account) (i : Nat) : Option (List Char) :=
  (parentStage df i).2

end App

/-! ### General lemmas about the shared building blocks -/

lemma mem_groupIdx {root : Account → Option (List Char)} {df : List Account}
    {r : List Char} {i : Nat} :
    i ∈ groupIdx root df r ↔ i < df.length ∧ root (dfGet df i) = some r := by
  unfold groupIdx
  simp [List.mem_filter]

lemma groupIdx_sorted (root : Account → Option (List Char)) (df : List Account)
    (r : List Char) : (groupIdx root df r).Pairwise (· < ·) :=
  List.Pairwise.sublist (List.filter_sublist _) (List.pairwise_lt_range df.length)

lemma pickFirst_mem (f : Nat → Nat → Bool) :
    ∀ (t : List Nat) (h : Nat), pickFirst f h t ∈ h :: t := by
  intro t
  induction t with
  | nil => intro h; simp [pickFirst]
  | cons j t ih =>
    intro h
    have hstep : pickFirst f h (j :: t) = pickFirst f (if f j h then j else h) t := rfl
    rw [hstep]
    rcases List.mem_cons.mp (ih (if f j h then j else h)) with h1 | h1
    · rw [h1]
      by_cases hf : f j h
      · rw [if_pos hf]
        exact List.mem_cons_of_mem _ (List.mem_cons_self _ _)
      · rw [if_neg hf]
        exact List.mem_cons_self _ _
    · exact List.mem_cons_of_mem _ (List.mem_cons_of_mem _ h1)

lemma firstBy_subset (f : Nat → Nat → Bool) (g : List Nat) : firstBy f g ⊆ g := by
  cases g with
  | nil => exact List.Subset.refl _
  | cons h t =>
    intro x hx
    unfold firstBy at hx
    rcases List.mem_singleton.mp hx with rfl
    exact pickFirst_mem f t h

lemma firstBy_ne_nil (f : Nat → Nat → Bool) (g : List Nat) (hg : g ≠ []) :
    firstBy f g ≠ [] := by
  cases g with
  | nil => exact absurd rfl hg
  | cons h t => simp [firstBy]

/-- On a strictly sorted index list, the head of a filter is a member
satisfying the predicate that is least among all members satisfying it
(i.e. the first in input order). -/
lemma filter_headD_least (p : Nat → Bool) :
    ∀ (l : List Nat), l.Pairwise (· < ·) → l.filter p ≠ [] →
      (l.filter p).headD 0 ∈ l ∧ p ((l.filter p).headD 0) = true ∧
        ∀ j ∈ l, p j = true → (l.filter p).headD 0 ≤ j
  | [], _, hne => absurd rfl hne
  | x :: t, hs, hne => by
    have hst := List.pairwise_cons.mp hs
    by_cases hx : p x
    · rw [List.filter_cons_of_pos hx]
      refine ⟨List.mem_cons_self _ _, by simpa using hx, ?_⟩
      intro j hj _
      rcases List.mem_cons.mp hj with rfl | hj
      · simp
      · exact Nat.le_of_lt (by simpa using hst.1 j hj)
    · rw [List.filter_cons_of_neg hx]
      have hne2 : t.filter p ≠ [] := by
        rw [List.filter_cons_of_neg hx] at hne
        exact hne
      obtain ⟨h1, h2, h3⟩ := filter_headD_least p t hst.2 hne2
      refine ⟨List.mem_cons_of_mem _ h1, h2, ?_⟩
      intro j hj hpj
      rcases List.mem_cons.mp hj with rfl | hj
      · exact absurd hpj (by simpa using hx)
      · exact h3 j hj hpj

lemma orElse_nil_left (next : List Nat) : orElse [] next = next := by
  simp [orElse]

lemma orElse_of_ne_nil {prev : List Nat} (next : List Nat) (h : prev ≠ []) :
    orElse prev next = prev := by
  simp [orElse, h]

lemma orElse_ne_nil {prev next : List Nat} (h : next ≠ []) : orElse prev next ≠ [] := by
  unfold orElse
  split
  case isTrue _ => exact h
  case isFalse he => simpa [List.isEmpty_iff] using he

lemma orElse_subset {prev next s : List Nat} (h1 : prev ⊆ s) (h2 : next ⊆ s) :
    orElse prev next ⊆ s := by
  unfold orElse
  split
  · exact h2
  · exact h1

lemma dfGet_eq_get (df : List Account) (i : Nat) (h : i < df.length) :
    dfGet df i = df.get ⟨i, h⟩ := by
  unfold dfGet
  rw [List.getD_eq_getElem?_getD, List.getElem?_eq_getElem h]
  rfl

namespace Clean

lemma domain_ne_none_of_root {a : Account} {r : List Char}
    (h : domainRoot a = some r) : a.domain ≠ none := by
  intro hd
  unfold domainRoot extract_domain_root_and_suffix at h
  rw [hd] at h
  simp at h

lemma simRule_subset (df : List Account) (g : List Nat) : simRule df g ⊆ g := by
  cases g with
  | nil => exact List.Subset.refl _
  | cons h t =>
    intro x hx
    rcases List.mem_singleton.mp hx with rfl
    exact pickFirst_mem _ t h

lemma parentIdxs_ne_nil (df : List Account) (g : List Nat) (hg : g ≠ []) :
    parentIdxs df g ≠ [] :=
  orElse_ne_nil (firstBy_ne_nil _ _ hg)

lemma parentIdxs_subset (df : List Account) (g : List Nat) : parentIdxs df g ⊆ g :=
  orElse_subset (orElse_subset (orElse_subset (orElse_subset (orElse_subset
    (List.filter_subset' g) (List.filter_subset' g)) (List.filter_subset' g))
    (firstBy_subset _ _)) (simRule_subset df g)) (firstBy_subset _ _)

lemma through4_ne_nil (df : List Account) (g : List Nat) (hg : g ≠ []) :
    parentIdxsThroughRule4 df g ≠ [] :=
  orElse_ne_nil (firstBy_ne_nil _ _ hg)

lemma parentIdxs_eq_through4 (df : List Account) (g : List Nat) (hg : g ≠ []) :
    parentIdxs df g = parentIdxsThroughRule4 df g := by
  have h4 := through4_ne_nil df g hg
  show orElse (orElse (parentIdxsThroughRule4 df g) (simRule df g))
      (firstBy (dateBetter df) g) = parentIdxsThroughRule4 df g
  rw [orElse_of_ne_nil _ h4, orElse_of_ne_nil _ h4]

lemma parentStage_of_group {df : List Account} {i : Nat} {r : List Char}
    (hroot : domainRoot (dfGet df i) = some r)
    (hg : ¬(groupIdx domainRoot df r).length ≤ 1) :
    parentStage df i =
      if i ∈ parentIdxs df (groupIdx domainRoot df r) then (Outcome.parent, none)
      else (Outcome.child,
        some (dfGet df ((parentIdxs df (groupIdx domainRoot df r)).headD 0)).id) := by
  have hgne : groupIdx domainRoot df r ≠ [] := by
    intro h
    rw [h] at hg
    simp at hg
  have hP := parentIdxs_ne_nil df _ hgne
  simp only [parentStage, hroot]
  rw [if_neg hg, if_neg hP]

lemma merge_target_none_of_domain {df : List Account} {i : Nat}
    (hd : (dfGet df i).domain ≠ none) : merge_target df i = none := by
  show (if (dfGet df i).domain = none ∧ (dfGet df i).name ≠ none then
      mergeScanAux df (nameOf (dfGet df i)) (List.range df.length) else none) = none
  rw [if_neg (fun h => hd h.1)]

lemma outcome_of_domain_some {df : List Account} {i : Nat}
    (hd : (dfGet df i).domain ≠ none) : outcome df i = outcomeAfterParent df i := by
  unfold outcome
  rw [if_neg (fun h => hd h.1.1)]
  unfold outcomeAfterMerge
  rw [merge_target_none_of_domain hd]
  simp

lemma outcomeAfterParent_ne_delete (df : List Account) (i : Nat) :
    outcomeAfterParent df i ≠ Outcome.delete := by
  unfold outcomeAfterParent parentStage
  cases domainRoot (dfGet df i) with
  | none => simp
  | some r =>
    simp only
    split
    · simp
    · split
      · simp
      · split <;> simp

end Clean

namespace App

lemma domain_ne_none_of_root_app {a : Account} {r : List Char}
    (h : domainRoot a = some r) : a.domain ≠ none := by
  intro hd
  unfold domainRoot extract_domain_root_and_suffix at h
  rw [hd] at h
  simp at h

lemma parentIdxs_ne_nil_app (df : List Account) (g : List Nat) (hg : g ≠ []) :
    parentIdxs df g ≠ [] :=
  orElse_ne_nil (firstBy_ne_nil _ _ hg)

lemma parentIdxs_subset_app (df : List Account) (g : List Nat) : parentIdxs df g ⊆ g :=
  orElse_subset (List.filter_subset' g) (firstBy_subset _ _)

lemma parentStage_of_group_app {df : List Account} {i : Nat} {r : List Char}
    (hroot : domainRoot (dfGet df i) = some r)
    (hg : ¬(groupIdx domainRoot df r).length ≤ 1) :
    parentStage df i =
      if i ∈ parentIdxs df (groupIdx domainRoot df r) then (Outcome.parent, none)
      else (Outcome.child,
        some (dfGet df ((parentIdxs df (groupIdx domainRoot df r)).headD 0)).id) := by
  have hgne : groupIdx domainRoot df r ≠ [] := by
    intro h
    rw [h] at hg
    simp at hg
  have hP := parentIdxs_ne_nil_app df _ hgne
  simp only [parentStage, hroot]
  rw [if_neg hg, if_neg hP]

lemma merge_target_none_of_domain_app {df : List Account} {i : Nat}
    (hd : (dfGet df i).domain ≠ none) : merge_target df i = none := by
  show (if (dfGet df i).domain = none ∧ (dfGet df i).name ≠ none then
      exactScanAux df (nameOf (dfGet df i)) (List.range df.length) else none) = none
  rw [if_neg (fun h => hd h.1)]

lemma outcome_of_domain_some_app {df : List Account} {i : Nat}
    (hd : (dfGet df i).domain ≠ none) : outcome df i = outcomeAfterParent df i := by
  unfold outcome
  rw [if_neg (fun h => hd h.1)]
  unfold outcomeAfterMerge
  rw [merge_target_none_of_domain_app hd]
  simp

end App

/-- Decomposition of the part_000 merge scan: a returned target is the
first qualifying entry of the scan list. -/
lemma mergeScanAux_first {df : List Account} {n : List Char} :
    ∀ {L : List Nat} {tid : List Char}, Clean.mergeScanAux df n L = some tid →
      ∃ L1 j L2, L = L1 ++ j :: L2 ∧
        (∀ k ∈ L1, ¬((dfGet df k).domain.isSome = true ∧
          mkRat 4 5 < Similarity.ratio n (nameOf (dfGet df k)))) ∧
        ((dfGet df j).domain.isSome = true ∧
          mkRat 4 5 < Similarity.ratio n (nameOf (dfGet df j))) ∧
        tid = (dfGet df j).id := by
  intro L
  induction L with
  | nil => intro tid h; simp [Clean.mergeScanAux] at h
  | cons j t ih =>
    intro tid h
    have hstep : Clean.mergeScanAux df n (j :: t) =
        if (dfGet df j).domain.isSome = true ∧
            mkRat 4 5 < Similarity.ratio n (nameOf (dfGet df j)) then
          some (dfGet df j).id
        else Clean.mergeScanAux df n t := rfl
    rw [hstep] at h
    by_cases hc : (dfGet df j).domain.isSome = true ∧
        mkRat 4 5 < Similarity.ratio n (nameOf (dfGet df j))
    · rw [if_pos hc] at h
      exact ⟨[], j, t, rfl, by simp, hc, (Option.some.inj h).symm⟩
    · rw [if_neg hc] at h
      obtain ⟨L1, j', L2, hL, hL1, hj', htid⟩ := ih h
      refine ⟨j :: L1, j', L2, by rw [hL]; rfl, ?_, hj', htid⟩
      intro k hk
      rcases List.mem_cons.mp hk with rfl | hk
      · exact hc
      · exact hL1 k hk

/-- Invariant of the app.py fuzzy best-match fold: the running ratio never
decreases, bounds every pool entry seen so far, and the state either never
changed or records a pool entry whose ratio strictly improved on the
initial value. -/
lemma fuzzyFold_inv (df : List Account) (n : List Char) :
    ∀ (L : List Nat) (st : Option (List Char) × ℚ),
      st.2 ≤ (L.foldl (App.fuzzyStep df n) st).2 ∧
      (∀ j ∈ L, (dfGet df j).domain.isSome = true → (dfGet df j).name ≠ none →
        Similarity.ratio n (nameOf (dfGet df j)) ≤ (L.foldl (App.fuzzyStep df n) st).2) ∧
      (L.foldl (App.fuzzyStep df n) st = st ∨
        ∃ j ∈ L, ((dfGet df j).domain.isSome = true ∧ (dfGet df j).name ≠ none) ∧
          (L.foldl (App.fuzzyStep df n) st).1 = some (dfGet df j).id ∧
          (L.foldl (App.fuzzyStep df n) st).2 = Similarity.ratio n (nameOf (dfGet df j)) ∧
          st.2 < (L.foldl (App.fuzzyStep df n) st).2) := by
  intro L
  induction L with
  | nil => exact fun st => ⟨le_rfl, by simp, Or.inl rfl⟩
  | cons j t ih =>
    intro st
    have hfoldl : (j :: t).foldl (App.fuzzyStep df n) st =
        t.foldl (App.fuzzyStep df n) (App.fuzzyStep df n st j) := rfl
    obtain ⟨ih1, ih2, ih3⟩ := ih (App.fuzzyStep df n st j)
    rw [hfoldl]
    by_cases hpool : (dfGet df j).domain.isSome = true ∧ (dfGet df j).name ≠ none
    · by_cases hlt : st.2 < Similarity.ratio n (nameOf (dfGet df j))
      · have hst1 : App.fuzzyStep df n st j =
            (some (dfGet df j).id, Similarity.ratio n (nameOf (dfGet df j))) := by
          unfold App.fuzzyStep
          rw [if_pos hpool, if_pos hlt]
        rw [hst1] at ih1 ih2 ih3
        have hr1 : Similarity.ratio n (nameOf (dfGet df j)) ≤
            (t.foldl (App.fuzzyStep df n)
              (some (dfGet df j).id, Similarity.ratio n (nameOf (dfGet df j)))).2 := ih1
        rw [hst1]
        refine ⟨le_of_lt (lt_of_lt_of_le hlt hr1), ?_, ?_⟩
        · intro k hk
          rcases List.mem_cons.mp hk with rfl | hk
          · intro _ _
            exact hr1
          · exact ih2 k hk
        · rcases ih3 with heq | ⟨k, hk, hkp, h1, h2, h3⟩
          · right
            refine ⟨j, List.mem_cons_self _ _, hpool, ?_, ?_, ?_⟩
            · rw [heq]
            · rw [heq]
            · rw [heq]
              exact hlt
          · right
            refine ⟨k, List.mem_cons_of_mem _ hk, hkp, h1, h2, ?_⟩
            have h3' : Similarity.ratio n (nameOf (dfGet df j)) <
                (t.foldl (App.fuzzyStep df n)
                  (some (dfGet df j).id, Similarity.ratio n (nameOf (dfGet df j)))).2 := h3
            exact lt_trans hlt h3'
      · have hst1 : App.fuzzyStep df n st j = st := by
          unfold App.fuzzyStep
          rw [if_pos hpool, if_neg hlt]
        rw [hst1] at ih1 ih2 ih3 ⊢
        refine ⟨ih1, ?_, ?_⟩
        · intro k hk
          rcases List.mem_cons.mp hk with rfl | hk
          · intro _ _
            exact le_trans (not_lt.mp hlt) ih1
          · exact ih2 k hk
        · rcases ih3 with heq | ⟨k, hk, hkp, h1, h2, h3⟩
          · exact Or.inl heq
          · exact Or.inr ⟨k, List.mem_cons_of_mem _ hk, hkp, h1, h2, h3⟩
    · have hst1 : App.fuzzyStep df n st j = st := by
        unfold App.fuzzyStep
        rw [if_neg hpool]
      rw [hst1] at ih1 ih2 ih3 ⊢
      refine ⟨ih1, ?_, ?_⟩
      · intro k hk
        rcases List.mem_cons.mp hk with rfl | hk
        · intro h1 h2
          exact absurd ⟨h1, h2⟩ hpool
        · exact ih2 k hk
      · rcases ih3 with heq | ⟨k, hk, hkp, h1, h2, h3⟩
        · exact Or.inl heq
        · exact Or.inr ⟨k, List.mem_cons_of_mem _ hk, hkp, h1, h2, h3⟩

/-- A successful fuzzy-dict lookup comes from a merge-candidate row (no
domain) carrying the looked-up id. -/
lemma fuzzyDictLookup_some {df : List Account} {idv t : List Char} :
    ∀ {L : List Nat}, App.fuzzyDictLookup df idv L = some t →
      ∃ j ∈ L, (dfGet df j).domain = none ∧ (dfGet df j).id = idv := by
  intro L
  induction L with
  | nil => intro h; simp [App.fuzzyDictLookup] at h
  | cons j t2 ih =>
    intro h
    by_cases hc : ((dfGet df j).domain = none ∧ (dfGet df j).name ≠ none) ∧
        (dfGet df j).id = idv
    · exact ⟨j, List.mem_cons_self _ _, hc.1.1, hc.2⟩
    · have hstep : App.fuzzyDictLookup df idv (j :: t2) = App.fuzzyDictLookup df idv t2 := by
        conv_lhs => unfold App.fuzzyDictLookup
        rw [if_neg hc]
      rw [hstep] at h
      obtain ⟨k, hk, hk2⟩ := ih h
      exact ⟨k, List.mem_cons_of_mem _ hk, hk2⟩

namespace Clean

lemma ppid_some_domain {df : List Account} {i : Nat}
    (h : (proposedParentId df i).isSome = true) : (dfGet df i).domain ≠ none := by
  intro hd
  have hroot : domainRoot (dfGet df i) = none := by
    unfold domainRoot extract_domain_root_and_suffix
    rw [hd]
  unfold proposedParentId parentStage at h
  rw [hroot] at h
  simp at h

lemma mt_some_domain {df : List Account} {i : Nat}
    (h : (merge_target df i).isSome = true) : (dfGet df i).domain = none := by
  by_contra hd
  rw [merge_target_none_of_domain hd] at h
  simp at h

end Clean

namespace App

lemma ppid_some_domain_app {df : List Account} {i : Nat}
    (h : (proposedParentId df i).isSome = true) : (dfGet df i).domain ≠ none := by
  intro hd
  have hroot : domainRoot (dfGet df i) = none := by
    unfold domainRoot extract_domain_root_and_suffix
    rw [hd]
  unfold proposedParentId parentStage at h
  rw [hroot] at h
  simp at h

lemma mt_some_domain_app {df : List Account} {i : Nat}
    (h : (merge_target df i).isSome = true) : (dfGet df i).domain = none := by
  by_contra hd
  rw [merge_target_none_of_domain_app hd] at h
  simp at h

end App

/-- Pairwise-distinct ids give injectivity of `id` on row indices. -/
lemma id_inj_of_pairwise {df : List Account}
    (huniq : List.Pairwise (fun a b => a.id ≠ b.id) df) {i j : Nat}
    (hi : i < df.length) (hj : j < df.length)
    (hij : (dfGet df i).id = (dfGet df j).id) : i = j := by
  rcases Nat.lt_trichotomy i j with h | h | h
  · exact absurd hij (by
      rw [dfGet_eq_get df i hi, dfGet_eq_get df j hj]
      exact List.pairwise_iff_get.mp huniq ⟨i, hi⟩ ⟨j, hj⟩ h)
  · exact h
  · exact absurd hij.symm (by
      rw [dfGet_eq_get df i hi, dfGet_eq_get df j hj]
      exact fun hc => (List.pairwise_iff_get.mp huniq ⟨j, hj⟩ ⟨i, hi⟩ h) hc)

/-! ### Concrete inputs used by counterexamples and witnesses -/

/-- Two records sharing part_000 domain root `"acme"`, both matching the
`.com` rule. -/
def dfC1 : List Account :=
  [⟨cl "1", some (cl "A"), some (cl "acme.com"), none, none, 0, 0, 0, 0⟩,
   ⟨cl "2", some (cl "B"), some (cl "www.acme.com"), none, none, 0, 0, 0, 0⟩]

/-- Two records sharing app.py root `"acme"`: a United States row and a
higher-contact French row, no `.com` suffix. -/
def dfC6 : List Account :=
  [⟨cl "1", some (cl "A"), some (cl "acme.de"), none, some (cl "United States"), 0, 1, 0, 0⟩,
   ⟨cl "2", some (cl "B"), some (cl "acme.fr"), none, some (cl "France"), 0, 5, 0, 0⟩]

/-- A domain-, website- and activity-less record named `"Acme"` together
with a domain-bearing record of the same name. -/
def dfC34 : List Account :=
  [⟨cl "1", some (cl "Acme"), none, none, none, 0, 0, 0, 0⟩,
   ⟨cl "2", some (cl "Acme"), some (cl "acme.com"), some (cl "w"), none, 0, 0, 1, 0⟩]

/-- Two records sharing app.py root `"acme"`: suffix `"telecom"` (ends with
`"com"` but not `".com"`) against a sort-preferred sibling. -/
def dfC5 : List Account :=
  [⟨cl "1", some (cl "A"), some (cl "acme.telecom"), none, none, 5, 0, 0, 0⟩,
   ⟨cl "2", some (cl "B"), some (cl "acme.tele"), none, none, 1, 9, 0, 0⟩]

/-- A domain-less candidate named `"aaaaaa"` and two domain-bearing
targets: the earlier one similar (ratio 5/6), the later one identical
(ratio 1). -/
def dfC7 : List Account :=
  [⟨cl "1", some (cl "aaaaaa"), none, none, none, 0, 0, 0, 0⟩,
   ⟨cl "2", some (cl "aaaaab"), some (cl "x.y"), none, none, 0, 0, 0, 0⟩,
   ⟨cl "3", some (cl "aaaaaa"), some (cl "z.w"), none, none, 0, 0, 0, 0⟩]

/-! ### C1 -/

/-- C1 counterexample: in the part_000 pipeline, the domain-root group
`"acme"` of `dfC1` has size 2 and BOTH members end with outcome `Parent`
(and no member gets `Child` with a proposed parent), so it is false that
exactly one member of every processed group of size ≥ 2 receives
`Parent` with the rest receiving `Child`. -/
theorem claim_c1_counterexample :
    groupIdx Clean.domainRoot dfC1 (cl "acme") = [0, 1] ∧
    Clean.outcome dfC1 0 = Outcome.parent ∧
    Clean.outcome dfC1 1 = Outcome.parent ∧
    Clean.proposedParentId dfC1 0 = none ∧
    Clean.proposedParentId dfC1 1 = none := by
  decide

/-- C1 amended: in every part_000 domain-root group of size ≥ 2, the
(nonempty) set of rows selected by the first non-empty cascade rule all
receive outcome `Parent`; every other group member receives `Child` with
`proposedParentId` equal to the FIRST selected row's id, which (for
pairwise-distinct ids) is never the member's own id.  Exactly one member
is `Parent` precisely when the selection is a singleton. -/
theorem claim_c1_amended (df : List Account) (r : List Char)
    (hg : 2 ≤ (groupIdx Clean.domainRoot df r).length)
    (huniq : List.Pairwise (fun a b => a.id ≠ b.id) df) :
    Clean.parentIdxs df (groupIdx Clean.domainRoot df r) ≠ [] ∧
    ∀ i ∈ groupIdx Clean.domainRoot df r,
      (Clean.outcome df i = Outcome.parent ↔
        i ∈ Clean.parentIdxs df (groupIdx Clean.domainRoot df r)) ∧
      (i ∉ Clean.parentIdxs df (groupIdx Clean.domainRoot df r) →
        Clean.outcome df i = Outcome.child ∧
        Clean.proposedParentId df i =
          some (dfGet df
            ((Clean.parentIdxs df (groupIdx Clean.domainRoot df r)).headD 0)).id ∧
        Clean.proposedParentId df i ≠ some (dfGet df i).id) := by
  have hgne : groupIdx Clean.domainRoot df r ≠ [] := by
    intro h
    rw [h] at hg
    simp at hg
  have hP := Clean.parentIdxs_ne_nil df _ hgne
  refine ⟨hP, ?_⟩
  intro i hi
  obtain ⟨hilt, hiroot⟩ := mem_groupIdx.mp hi
  have hdne : (dfGet df i).domain ≠ none := Clean.domain_ne_none_of_root hiroot
  have hout := Clean.outcome_of_domain_some hdne
  have hglen : ¬(groupIdx Clean.domainRoot df r).length ≤ 1 := by omega
  have hps := Clean.parentStage_of_group hiroot hglen
  have hhead_mem : (Clean.parentIdxs df (groupIdx Clean.domainRoot df r)).headD 0 ∈
      Clean.parentIdxs df (groupIdx Clean.domainRoot df r) := by
    cases hPl : Clean.parentIdxs df (groupIdx Clean.domainRoot df r) with
    | nil => exact absurd hPl hP
    | cons p t => simp
  have hhead_g := Clean.parentIdxs_subset df _ hhead_mem
  have hhlt := (mem_groupIdx.mp hhead_g).1
  constructor
  · constructor
    · intro hpar
      by_contra hni
      rw [hout] at hpar
      unfold Clean.outcomeAfterParent at hpar
      rw [hps, if_neg hni] at hpar
      simp at hpar
    · intro hmem
      rw [hout]
      unfold Clean.outcomeAfterParent
      rw [hps, if_pos hmem]
  · intro hni
    have hppid : Clean.proposedParentId df i =
        some (dfGet df
          ((Clean.parentIdxs df (groupIdx Clean.domainRoot df r)).headD 0)).id := by
      unfold Clean.proposedParentId
      rw [hps, if_neg hni]
    refine ⟨?_, hppid, ?_⟩
    · rw [hout]
      unfold Clean.outcomeAfterParent
      rw [hps, if_neg hni]
    · rw [hppid]
      intro heq
      have hide := Option.some.inj heq
      have := id_inj_of_pairwise huniq hhlt hilt hide
      exact hni (this ▸ hhead_mem)

/-- C1 witness: the amended claim applied to a group whose cascade selects
a single parent. -/
theorem claim_c1_witness :
    2 ≤ (groupIdx Clean.domainRoot dfC6 (cl "acme")).length ∧
    List.Pairwise (fun a b => a.id ≠ b.id) dfC6 ∧
    Clean.parentIdxs dfC6 (groupIdx Clean.domainRoot dfC6 (cl "acme")) ≠ [] :=
  ⟨by decide, by decide,
    (claim_c1_amended dfC6 (cl "acme") (by decide) (by decide)).1⟩

/-! ### C2 -/

/-- C2 counterexample: the part_000 Domain Parser maps
`"mail.acme.co.uk"` to `("co", "uk")`, not to the claimed
`("mail", "acme.co.uk")`. -/
theorem claim_c2_counterexample :
    Clean.extract_domain_root_and_suffix (some (cl "mail.acme.co.uk")) =
      (some (cl "co"), some (cl "uk")) ∧
    Clean.extract_domain_root_and_suffix (some (cl "mail.acme.co.uk")) ≠
      (some (cl "mail"), some (cl "acme.co.uk")) := by
  decide

/-- C2 amended: both parsers return `(null, null)` on a missing domain or
fewer than 2 dot-separated parts; on ≥ 2 parts the app.py parser returns
`(first part, rest joined by '.')` while the part_000 parser returns
`(second-to-last part, last part)`; the two agree exactly on 2-part
domains. -/
theorem claim_c2_amended :
    (App.extract_domain_root_and_suffix none = (none, none) ∧
      Clean.extract_domain_root_and_suffix none = (none, none)) ∧
    (∀ d : List Char, (splitDot d).length < 2 →
      App.extract_domain_root_and_suffix (some d) = (none, none) ∧
      Clean.extract_domain_root_and_suffix (some d) = (none, none)) ∧
    (∀ d : List Char, 2 ≤ (splitDot d).length →
      App.extract_domain_root_and_suffix (some d) =
        (some ((splitDot d).headD []), some (joinDot (splitDot d).tail)) ∧
      Clean.extract_domain_root_and_suffix (some d) =
        (some ((splitDot d).getD ((splitDot d).length - 2) []),
          some ((splitDot d).getD ((splitDot d).length - 1) []))) ∧
    (∀ d : List Char, (splitDot d).length = 2 →
      Clean.extract_domain_root_and_suffix (some d) =
        App.extract_domain_root_and_suffix (some d)) := by
  have happ : ∀ d : List Char,
      App.extract_domain_root_and_suffix (some d) =
        if 2 ≤ (splitDot d).length then
          (some ((splitDot d).headD []), some (joinDot (splitDot d).tail))
        else (none, none) := fun d => rfl
  have hclean : ∀ d : List Char,
      Clean.extract_domain_root_and_suffix (some d) =
        if 2 ≤ (splitDot d).length then
          (some ((splitDot d).getD ((splitDot d).length - 2) []),
            some ((splitDot d).getD ((splitDot d).length - 1) []))
        else (none, none) := fun d => rfl
  refine ⟨⟨rfl, rfl⟩, ?_, ?_, ?_⟩
  · intro d hd
    rw [happ, hclean, if_neg (by omega), if_neg (by omega)]
    exact ⟨rfl, rfl⟩
  · intro d hd
    rw [happ, hclean, if_pos hd, if_pos hd]
    exact ⟨rfl, rfl⟩
  · intro d hd
    obtain ⟨a, b, hab⟩ := List.length_eq_two.mp hd
    rw [happ, hclean, if_pos (by omega), if_pos (by omega), hab]
    simp [joinDot]

/-- C2 witness: the amended claim applied to the 2-part domain
`"acme.com"`, where the two parsers agree. -/
theorem claim_c2_witness :
    (splitDot (cl "acme.com")).length = 2 ∧
    Clean.extract_domain_root_and_suffix (some (cl "acme.com")) =
      App.extract_domain_root_and_suffix (some (cl "acme.com")) :=
  ⟨by decide, claim_c2_amended.2.2.2 (cl "acme.com") (by decide)⟩

/-! ### C10 -/

/-- C10: for every group of size ≥ 2 the part_000 cascade equals its
truncation after rule 4 (the sort fallback is never empty on a nonempty
group, so the similarity rule 5 and oldest-record rule 6 are never
executed) and a parent row is always found. -/
theorem claim_c10 (df : List Account) (g : List Nat) (hg : 2 ≤ g.length) :
    Clean.parentIdxs df g = Clean.parentIdxsThroughRule4 df g ∧
    Clean.parentIdxs df g ≠ [] := by
  have hgne : g ≠ [] := by
    intro h
    rw [h] at hg
    simp at hg
  exact ⟨Clean.parentIdxs_eq_through4 df g hgne, Clean.parentIdxs_ne_nil df g hgne⟩

/-- C10 witness: the theorem applied to the concrete group `[0, 1]` of
`dfC1`. -/
theorem claim_c10_witness :
    2 ≤ ([0, 1] : List Nat).length ∧ Clean.parentIdxs dfC1 [0, 1] ≠ [] :=
  ⟨by decide, (claim_c10 dfC1 [0, 1] (by decide)).2⟩

/-! ### C3 -/

/-- C3 counterexample: in app.py, record 0 of `dfC34` satisfies the
deletion preconditions and shares its name with the domain-bearing record
1, yet its final outcome is `Delete` — the claimed same-name guard is
absent from app.py's deletion stage. -/
theorem claim_c3_counterexample :
    deletionPre (dfGet dfC34 0) ∧
    (dfGet dfC34 1).name = (dfGet dfC34 0).name ∧
    (dfGet dfC34 1).domain.isSome = true ∧
    App.outcome dfC34 0 = Outcome.delete := by
  decide

/-- C3 amended: the part_000 pipeline marks a record `Delete` iff it meets
the deletion preconditions and no domain-bearing record shares its name;
app.py's initial processing instead marks every record meeting the
preconditions `Delete`, with no name guard. -/
theorem claim_c3_amended :
    (∀ (df : List Account) (i : Nat),
      Clean.outcome df i = Outcome.delete ↔
        deletionPre (dfGet df i) ∧
          Clean.hasDomainWithName df (dfGet df i).name = false) ∧
    (∀ (df : List Account) (i : Nat),
      deletionPre (dfGet df i) → App.outcome df i = Outcome.delete) := by
  constructor
  · intro df i
    constructor
    · intro h
      by_cases hcond : deletionPre (dfGet df i) ∧
          Clean.hasDomainWithName df (dfGet df i).name = false
      · exact hcond
      · exfalso
        unfold Clean.outcome at h
        rw [if_neg hcond] at h
        unfold Clean.outcomeAfterMerge at h
        by_cases hmt : (Clean.merge_target df i).isSome = true
        · rw [if_pos hmt] at h
          exact Outcome.noConfusion h
        · rw [if_neg hmt] at h
          exact Clean.outcomeAfterParent_ne_delete df i h
    · intro hcond
      unfold Clean.outcome
      rw [if_pos hcond]
  · intro df i hpre
    unfold App.outcome
    rw [if_pos hpre]

/-- C3 witness: the app.py conjunct applied to `dfC34`. -/
theorem claim_c3_witness :
    deletionPre (dfGet dfC34 0) ∧ App.outcome dfC34 0 = Outcome.delete :=
  ⟨by decide, claim_c3_amended.2 dfC34 0 (by decide)⟩

/-! ### C4 -/

/-- C4 counterexample: in app.py's initial processing, record 0 of `dfC34`
is assigned `Merge` (with merge target record 2) by the merge stage, and
the subsequent deletion stage overwrites that outcome with `Delete`. -/
theorem claim_c4_counterexample :
    App.outcomeAfterMerge dfC34 0 = Outcome.merge ∧
    App.merge_target dfC34 0 = some (cl "2") ∧
    App.outcome dfC34 0 = Outcome.delete := by
  decide

/-- C4 amended: deletion can override an earlier `Merge`.  In app.py any
record meeting the deletion preconditions is overwritten to `Delete`
even if the merge stage set `Merge`; in part_000 the same happens
whenever additionally no domain-bearing record carries the candidate's
exact name (possible for fuzzy matches of unequal names), while a
same-name domain-bearing record does protect the `Merge` outcome. -/
theorem claim_c4_amended :
    (∀ (df : List Account) (i : Nat),
      App.outcomeAfterMerge df i = Outcome.merge → deletionPre (dfGet df i) →
        App.outcome df i = Outcome.delete) ∧
    (∀ (df : List Account) (i : Nat),
      Clean.outcomeAfterMerge df i = Outcome.merge → deletionPre (dfGet df i) →
        Clean.hasDomainWithName df (dfGet df i).name = false →
        Clean.outcome df i = Outcome.delete) ∧
    (∀ (df : List Account) (i : Nat),
      Clean.outcomeAfterMerge df i = Outcome.merge →
        Clean.hasDomainWithName df (dfGet df i).name = true →
        Clean.outcome df i = Outcome.merge) := by
  refine ⟨?_, ?_, ?_⟩
  · intro df i _ hpre
    unfold App.outcome
    rw [if_pos hpre]
  · intro df i _ hpre hname
    unfold Clean.outcome
    rw [if_pos ⟨hpre, hname⟩]
  · intro df i hmerge hname
    unfold Clean.outcome
    rw [if_neg (fun hcond => by rw [hname] at hcond; exact Bool.noConfusion hcond.2)]
    exact hmerge

/-- C4 witness: the app.py conjunct applied to `dfC34`. -/
theorem claim_c4_witness :
    App.outcomeAfterMerge dfC34 0 = Outcome.merge ∧ deletionPre (dfGet dfC34 0) ∧
    App.outcome dfC34 0 = Outcome.delete :=
  ⟨by decide, by decide, claim_c4_amended.1 dfC34 0 (by decide) (by decide)⟩

/-! ### C5 -/

/-- C5 counterexample: in app.py the rule-1 filter of the `"acme"` group of
`dfC5` selects record 0, whose domain `"acme.telecom"` does NOT end with
the literal `".com"` (its suffix `"telecom"` merely ends with `"com"`),
and record 0 ends as `Parent`. -/
theorem claim_c5_counterexample :
    (dfGet dfC5 0).domain = some (cl "acme.telecom") ∧
    endsWithCL (cl "acme.telecom") (cl ".com") = false ∧
    (groupIdx App.domainRoot dfC5 (cl "acme")).filter
      (fun i => App.comRule (dfGet dfC5 i)) = [0] ∧
    App.outcome dfC5 0 = Outcome.parent := by
  decide

/-- C5 amended: part_000's rule 1 tests the anchored regex `^.*\.com$`
(for newline-free domains exactly "ends with the literal `.com`"), while
app.py's rule 1 tests whether the domain SUFFIX ends with `"com"` (so
`"acme.telecom"` qualifies); when the app.py rule-1 filter is non-empty it
is the whole parent selection and every matching group member is marked
`Parent` (not only the first). -/
theorem claim_c5_amended :
    (∀ (a : Account) (d : List Char), a.domain = some d →
      containsChar d (Char.ofNat 10) = false →
      Clean.comRule a = endsWithCL d (cl ".com")) ∧
    (∀ (df : List Account) (r : List Char),
      2 ≤ (groupIdx App.domainRoot df r).length →
      (groupIdx App.domainRoot df r).filter (fun i => App.comRule (dfGet df i)) ≠ [] →
      App.parentIdxs df (groupIdx App.domainRoot df r) =
        (groupIdx App.domainRoot df r).filter (fun i => App.comRule (dfGet df i)) ∧
      (∀ i ∈ groupIdx App.domainRoot df r, App.comRule (dfGet df i) = true →
        App.outcome df i = Outcome.parent)) := by
  constructor
  · intro a d hd hnl
    have hend : endsWithCL d [Char.ofNat 10] = false := by
      unfold endsWithCL
      cases hrev : d.reverse with
      | nil => rfl
      | cons e t =>
        by_cases hce : Char.ofNat 10 = e
        · exfalso
          have hmem : Char.ofNat 10 ∈ d := by
            rw [← List.mem_reverse, hrev, hce]
            exact List.mem_cons_self _ _
          have : containsChar d (Char.ofNat 10) = true := by
            unfold containsChar
            rw [List.any_eq_true]
            exact ⟨Char.ofNat 10, hmem, by simp⟩
          rw [hnl] at this
          exact Bool.noConfusion this
        · simp [isPrefixCL, hce]
    have hcom : Clean.comRule a = Clean.matchesDotComAnchored d := by
      unfold Clean.comRule
      rw [hd]
    rw [hcom]
    unfold Clean.matchesDotComAnchored
    rw [hend]
    simp [hnl]
  · intro df r hg hne
    have heq : App.parentIdxs df (groupIdx App.domainRoot df r) =
        (groupIdx App.domainRoot df r).filter (fun i => App.comRule (dfGet df i)) :=
      orElse_of_ne_nil _ hne
    refine ⟨heq, ?_⟩
    intro i hi hcomi
    obtain ⟨hilt, hiroot⟩ := mem_groupIdx.mp hi
    have hdne := App.domain_ne_none_of_root_app hiroot
    rw [App.outcome_of_domain_some_app hdne]
    unfold App.outcomeAfterParent
    rw [App.parentStage_of_group_app hiroot (by omega),
      if_pos (by rw [heq]; exact List.mem_filter.mpr ⟨hi, by simpa using hcomi⟩)]

/-- C5 witness: the app.py conjunct applied to `dfC5`. -/
theorem claim_c5_witness :
    2 ≤ (groupIdx App.domainRoot dfC5 (cl "acme")).length ∧
    App.parentIdxs dfC5 (groupIdx App.domainRoot dfC5 (cl "acme")) =
      (groupIdx App.domainRoot dfC5 (cl "acme")).filter
        (fun i => App.comRule (dfGet dfC5 i)) :=
  ⟨by decide, (claim_c5_amended.2 dfC5 (cl "acme") (by decide) (by decide)).1⟩

/-! ### C6 -/

/-- C6 counterexample: in app.py the `"acme"` group of `dfC6` has no
rule-1 match and contains a United States record (record 0), yet the
parent is record 1 (more contacts) and record 0 becomes `Child`: app.py
has no country rules at all. -/
theorem claim_c6_counterexample :
    (dfGet dfC6 0).billingCountry = some (cl "United States") ∧
    (groupIdx App.domainRoot dfC6 (cl "acme")).filter
      (fun i => App.comRule (dfGet dfC6 i)) = [] ∧
    groupIdx App.domainRoot dfC6 (cl "acme") = [0, 1] ∧
    App.outcome dfC6 0 = Outcome.child ∧
    App.outcome dfC6 1 = Outcome.parent := by
  decide

/-- C6 amended: in part_000 the cascade order is exactly United States,
then United Kingdom/Europe, then the contacts/created-date sort (all
matching rows are selected, and for children the proposed parent id is the
FIRST United States row in input order); in app.py there are no country
rules and a group without a rule-1 match goes directly to the sort. -/
theorem claim_c6_amended :
    (∀ (df : List Account) (g : List Nat),
      g.filter (fun i => Clean.comRule (dfGet df i)) = [] →
      ((g.filter (fun i => Clean.usRule (dfGet df i)) ≠ [] →
          Clean.parentIdxs df g = g.filter (fun i => Clean.usRule (dfGet df i))) ∧
        (g.filter (fun i => Clean.usRule (dfGet df i)) = [] →
          g.filter (fun i => Clean.ukEuRule (dfGet df i)) ≠ [] →
          Clean.parentIdxs df g = g.filter (fun i => Clean.ukEuRule (dfGet df i))) ∧
        (g.filter (fun i => Clean.usRule (dfGet df i)) = [] →
          g.filter (fun i => Clean.ukEuRule (dfGet df i)) = [] →
          Clean.parentIdxs df g = firstBy (tcBetter df) g))) ∧
    (∀ (df : List Account) (r : List Char),
      (groupIdx Clean.domainRoot df r).filter
        (fun i => Clean.comRule (dfGet df i)) = [] →
      (groupIdx Clean.domainRoot df r).filter
        (fun i => Clean.usRule (dfGet df i)) ≠ [] →
      ∃ p, p = (Clean.parentIdxs df (groupIdx Clean.domainRoot df r)).headD 0 ∧
        p ∈ groupIdx Clean.domainRoot df r ∧ Clean.usRule (dfGet df p) = true ∧
        ∀ j ∈ groupIdx Clean.domainRoot df r,
          Clean.usRule (dfGet df j) = true → p ≤ j) ∧
    (∀ (df : List Account) (g : List Nat),
      g.filter (fun i => App.comRule (dfGet df i)) = [] →
      App.parentIdxs df g = firstBy (tcBetter df) g) := by
  have hclean : ∀ (df : List Account) (g : List Nat),
      g.filter (fun i => Clean.comRule (dfGet df i)) = [] →
      ((g.filter (fun i => Clean.usRule (dfGet df i)) ≠ [] →
          Clean.parentIdxs df g = g.filter (fun i => Clean.usRule (dfGet df i))) ∧
        (g.filter (fun i => Clean.usRule (dfGet df i)) = [] →
          g.filter (fun i => Clean.ukEuRule (dfGet df i)) ≠ [] →
          Clean.parentIdxs df g = g.filter (fun i => Clean.ukEuRule (dfGet df i))) ∧
        (g.filter (fun i => Clean.usRule (dfGet df i)) = [] →
          g.filter (fun i => Clean.ukEuRule (dfGet df i)) = [] →
          Clean.parentIdxs df g = firstBy (tcBetter df) g)) := by
    intro df g hcom
    have hbase : Clean.parentIdxs df g =
        orElse (orElse (orElse (orElse
          (g.filter (fun i => Clean.usRule (dfGet df i)))
          (g.filter (fun i => Clean.ukEuRule (dfGet df i))))
          (firstBy (tcBetter df) g))
          (Clean.simRule df g))
          (firstBy (dateBetter df) g) := by
      unfold Clean.parentIdxs
      rw [hcom, orElse_nil_left]
    refine ⟨?_, ?_, ?_⟩
    · intro hus
      rw [hbase, orElse_of_ne_nil _ hus, orElse_of_ne_nil _ hus,
        orElse_of_ne_nil _ hus, orElse_of_ne_nil _ hus]
    · intro hus huk
      rw [hbase, hus, orElse_nil_left, orElse_of_ne_nil _ huk,
        orElse_of_ne_nil _ huk, orElse_of_ne_nil _ huk]
    · intro hus huk
      have htc : firstBy (tcBetter df) g ≠ [] ∨ g = [] := by
        cases g with
        | nil => exact Or.inr rfl
        | cons a t => exact Or.inl (firstBy_ne_nil _ _ (by simp))
      rcases htc with htc | rfl
      · rw [hbase, hus, orElse_nil_left, huk, orElse_nil_left,
          orElse_of_ne_nil _ htc, orElse_of_ne_nil _ htc]
      · rfl
  refine ⟨hclean, ?_, ?_⟩
  · intro df r hcom hus
    obtain ⟨h1, h2, h3⟩ := filter_headD_least (fun i => Clean.usRule (dfGet df i))
      (groupIdx Clean.domainRoot df r) (groupIdx_sorted _ df r) hus
    refine ⟨((groupIdx Clean.domainRoot df r).filter
      (fun i => Clean.usRule (dfGet df i))).headD 0, ?_, h1, by simpa using h2, ?_⟩
    · rw [(hclean df _ hcom).1 hus]
    · intro j hj hja
      exact h3 j hj (by simpa using hja)
  · intro df g hcom
    unfold App.parentIdxs
    rw [hcom, orElse_nil_left]

/-- C6 witness: the app.py conjunct applied to the group of `dfC6`. -/
theorem claim_c6_witness :
    (groupIdx App.domainRoot dfC6 (cl "acme")).filter
      (fun i => App.comRule (dfGet dfC6 i)) = [] ∧
    App.parentIdxs dfC6 (groupIdx App.domainRoot dfC6 (cl "acme")) =
      firstBy (tcBetter dfC6) (groupIdx App.domainRoot dfC6 (cl "acme")) :=
  ⟨by decide, claim_c6_amended.2.2 dfC6 _ (by decide)⟩

/-! ### C7 -/

/-- C7 counterexample: in the part_000 merge resolver the candidate
`"aaaaaa"` of `dfC7` is assigned target record 2 (the FIRST scan entry
above the threshold, similarity 5/6) even though pool record 3 has the
strictly larger similarity 1 — the resolver does not take the maximum. -/
theorem claim_c7_counterexample :
    Clean.merge_target dfC7 0 = some (cl "2") ∧
    (dfGet dfC7 0).name = some (cl "aaaaaa") ∧
    (dfGet dfC7 2).domain.isSome = true ∧
    (dfGet dfC7 2).id = cl "3" ∧
    Similarity.ratio (cl "aaaaaa") (nameOf (dfGet dfC7 1)) <
      Similarity.ratio (cl "aaaaaa") (nameOf (dfGet dfC7 2)) := by
  decide

/-- C7 amended: app.py's fuzzy resolver does return a pool record of
maximal similarity provided it strictly exceeds 0.8, and returns nothing
when no pool record strictly exceeds 0.8; part_000's merge resolver
instead returns the FIRST scanned pool record whose similarity strictly
exceeds 0.8 (every earlier scan entry fails the condition). -/
theorem claim_c7_amended :
    (∀ (df : List Account) (n tid : List Char), App.fuzzy_target df n = some tid →
      ∃ j, j < df.length ∧
        ((dfGet df j).domain.isSome = true ∧ (dfGet df j).name ≠ none) ∧
        tid = (dfGet df j).id ∧
        mkRat 4 5 < Similarity.ratio n (nameOf (dfGet df j)) ∧
        ∀ k, k < df.length → (dfGet df k).domain.isSome = true →
          (dfGet df k).name ≠ none →
          Similarity.ratio n (nameOf (dfGet df k)) ≤
            Similarity.ratio n (nameOf (dfGet df j))) ∧
    (∀ (df : List Account) (n : List Char), App.fuzzy_target df n = none →
      ∀ k, k < df.length → (dfGet df k).domain.isSome = true →
        (dfGet df k).name ≠ none →
        Similarity.ratio n (nameOf (dfGet df k)) ≤ mkRat 4 5) ∧
    (∀ (df : List Account) (n tid : List Char) (L : List Nat),
      Clean.mergeScanAux df n L = some tid →
      ∃ L1 j L2, L = L1 ++ j :: L2 ∧
        (∀ k ∈ L1, ¬((dfGet df k).domain.isSome = true ∧
          mkRat 4 5 < Similarity.ratio n (nameOf (dfGet df k)))) ∧
        ((dfGet df j).domain.isSome = true ∧
          mkRat 4 5 < Similarity.ratio n (nameOf (dfGet df j))) ∧
        tid = (dfGet df j).id) := by
  refine ⟨?_, ?_, ?_⟩
  · intro df n tid h
    obtain ⟨h1, h2, h3⟩ := fuzzyFold_inv df n (List.range df.length) (none, mkRat 4 5)
    have hft : App.fuzzy_target df n =
        ((List.range df.length).foldl (App.fuzzyStep df n) (none, mkRat 4 5)).1 := rfl
    rcases h3 with heq | ⟨j, hj, hpool, hj1, hj2, hj3⟩
    · rw [hft, heq] at h
      exact Option.noConfusion h
    · refine ⟨j, List.mem_range.mp hj, hpool, ?_, ?_, ?_⟩
      · rw [hft, hj1] at h
        exact (Option.some.inj h).symm
      · rw [hj2] at hj3
        simpa using hj3
      · intro k hk hkd hkn
        have := h2 k (List.mem_range.mpr hk) hkd hkn
        rw [hj2] at this
        exact this
  · intro df n h k hk hkd hkn
    obtain ⟨h1, h2, h3⟩ := fuzzyFold_inv df n (List.range df.length) (none, mkRat 4 5)
    have hft : App.fuzzy_target df n =
        ((List.range df.length).foldl (App.fuzzyStep df n) (none, mkRat 4 5)).1 := rfl
    rcases h3 with heq | ⟨j, hj, hpool, hj1, hj2, hj3⟩
    · have := h2 k (List.mem_range.mpr hk) hkd hkn
      rw [heq] at this
      simpa using this
    · rw [hft, hj1] at h
      exact Option.noConfusion h
  · intro df n tid L h
    exact mergeScanAux_first h

/-- C7 witness: the app.py conjunct applied to `dfC7`, whose fuzzy target
for `"aaaaaa"` is record 3. -/
theorem claim_c7_witness :
    App.fuzzy_target dfC7 (cl "aaaaaa") = some (cl "3") ∧
    ∃ j, j < dfC7.length ∧
      ((dfGet dfC7 j).domain.isSome = true ∧ (dfGet dfC7 j).name ≠ none) ∧
      cl "3" = (dfGet dfC7 j).id ∧
      mkRat 4 5 < Similarity.ratio (cl "aaaaaa") (nameOf (dfGet dfC7 j)) ∧
      ∀ k, k < dfC7.length → (dfGet dfC7 k).domain.isSome = true →
        (dfGet dfC7 k).name ≠ none →
        Similarity.ratio (cl "aaaaaa") (nameOf (dfGet dfC7 k)) ≤
          Similarity.ratio (cl "aaaaaa") (nameOf (dfGet dfC7 j)) :=
  ⟨by decide, claim_c7_amended.1 dfC7 (cl "aaaaaa") (cl "3") (by decide)⟩

/-! ### C8 -/

/-- C8 counterexample: `SequenceMatcher.ratio` is NOT symmetric — on the
pair `"XYqcZW"`/`"ZWXYc"` it gives 6/11 one way and 4/11 the other (the
greedy longest-block tie-break prefers the block earliest in the FIRST
string, and the two orders leave different residues). -/
theorem claim_c8_counterexample :
    Similarity.ratio (cl "XYqcZW") (cl "ZWXYc") ≠
      Similarity.ratio (cl "ZWXYc") (cl "XYqcZW") := by
  decide

/-- C8 amended: `similarity(a, a) = 1.0` for every non-empty string `a`
(symmetry, the claim's other half, fails in general). -/
theorem claim_c8_amended (a : List Char) (ha : a ≠ []) :
    Similarity.ratio a a = 1 :=
  Similarity.ratio_self a

/-- C8 witness: reflexivity at the concrete string `"Acme"`. -/
theorem claim_c8_witness :
    cl "Acme" ≠ [] ∧ Similarity.ratio (cl "Acme") (cl "Acme") = 1 :=
  ⟨by decide, claim_c8_amended (cl "Acme") (by decide)⟩

/-! ### C9 -/

/-- C9: with pairwise-distinct account ids, no record ever carries both a
proposed parent id and a merge target id — in the part_000 pipeline, in
app.py's initial processing, and in app.py after the optional fuzzy
stage.  (A proposed parent requires a present domain, a merge target a
missing one.) -/
theorem claim_c9 (df : List Account)
    (huniq : List.Pairwise (fun a b => a.id ≠ b.id) df) (i : Nat) :
    ¬((Clean.proposedParentId df i).isSome = true ∧
      (Clean.merge_target df i).isSome = true) ∧
    ¬((App.proposedParentId df i).isSome = true ∧
      (App.merge_target df i).isSome = true) ∧
    ¬((App.proposedParentId df i).isSome = true ∧
      (App.resultAfterFuzzy df i).2.isSome = true) := by
  refine ⟨?_, ?_, ?_⟩
  · rintro ⟨hp, hm⟩
    exact Clean.ppid_some_domain hp (Clean.mt_some_domain hm)
  · rintro ⟨hp, hm⟩
    exact App.ppid_some_domain_app hp (App.mt_some_domain_app hm)
  · rintro ⟨hp, hm⟩
    have hdne := App.ppid_some_domain_app hp
    cases hfl : App.fuzzyDictLookup df (dfGet df i).id (List.range df.length).reverse with
    | none =>
      have hres : (App.resultAfterFuzzy df i).2 = App.merge_target df i := by
        unfold App.resultAfterFuzzy
        rw [hfl]
      rw [hres] at hm
      exact hdne (App.mt_some_domain_app hm)
    | some t =>
      obtain ⟨j, hj, hjdom, hjid⟩ := fuzzyDictLookup_some hfl
      have hjlt : j < df.length := List.mem_range.mp (List.mem_reverse.mp hj)
      have hilt : i < df.length := by
        by_contra hge
        push_neg at hge
        refine hdne ?_
        show (dfGet df i).domain = none
        unfold dfGet
        rw [List.getD_eq_getElem?_getD, List.getElem?_eq_none (by omega)]
        rfl
      have hij : i = j := id_inj_of_pairwise huniq hilt hjlt hjid.symm
      rw [← hij] at hjdom
      exact hdne hjdom

/-- C9 witness: the theorem applied to `dfC1` at record 0. -/
theorem claim_c9_witness :
    List.Pairwise (fun a b => a.id ≠ b.id) dfC1 ∧
    ¬((Clean.proposedParentId dfC1 0).isSome = true ∧
      (Clean.merge_target dfC1 0).isSome = true) :=
  ⟨by decide, (claim_c9 dfC1 (by decide) 0).1⟩

end AccountDedupe
